import Mathlib

/-!
Verification of the streak-computation script of the github-streaks
repository (file .github/scripts/generate_streak_svg.py).

Modelling conventions:
* A calendar date is an integer day number (days since an arbitrary epoch);
  the Python code only ever uses dates through day-difference arithmetic
  and equality, so this is faithful.  In concrete test inputs below,
  day 0 stands for 2024-01-01, day 1 for 2024-01-02, and so on.
* An activity record (the Python dict daily_counts) is the list of its
  keys.  The function calculate_streaks only reads the key set: it tests
  emptiness (line 73, if not daily_counts) and sorts the keys (line 76,
  sorted(daily_counts.keys())).  Dict keys are unique, so theorems that
  depend on uniqueness carry a Nodup hypothesis.
* datetime.now() is read by the Python function in two places (line 74
  and line 81) during a single call; both reads are modelled by the
  explicit parameter now.
* The three string outputs of the function are modelled injectively by
  the inductive type RangeOut: the literal string N/A, the formatted
  current date returned on the empty-record branch (line 74), and the
  formatted pair start - end (line 104).  Distinct constructors
  correspond to distinct concrete strings.
-/

/-- Output of the range slot of calculate_streaks, modelling the three
possible string shapes the Python code can return there. -/
inductive RangeOut where
  | na : RangeOut
  | todayStr : Int → RangeOut
  | range : Int → Int → RangeOut
deriving DecidableEq

/-- Lines 76: sorted(daily_counts.keys()), ascending sort of the keys. -/
def sortedDates (daily_counts : List Int) : List Int :=
  List.insertionSort (· ≤ ·) daily_counts

/-- Lines 78-85 of the source: the current-streak loop.  It walks the
dates in descending order with counter current, and for each date d
computes delta = now - d; it increments while delta <= current and stops
at the first date where that fails. -/
def currentLoop (now : Int) : List Int → Nat → Nat
  | [], current => current
  | d :: ds, current =>
    if now - d ≤ (current : Int) then currentLoop now ds (current + 1) else current

/-- The current-streak computation on a record (lines 76-85). -/
def compute_current (now : Int) (daily_counts : List Int) : Nat :=
  currentLoop now (sortedDates daily_counts).reverse 0

/-- The loop state of the longest-streak scan (lines 87-91): longest,
streak, prev, longest_start, longest_end.  The empty strings used as
initial values of longest_start and longest_end are modelled by none. -/
structure LongState where
  longest : Nat
  streak : Nat
  prev : Option Int
  longest_start : Option Int
  longest_end : Option Int
deriving DecidableEq

/-- One iteration of the longest-streak loop (lines 92-102).  When the
run is extended past the maximum, the code stores prev (or the date
itself when prev is None) as longest_start and the date as longest_end
(lines 98-99), and always sets prev to the date afterwards (line 102). -/
def longStep (st : LongState) (date : Int) : LongState :=
  match st.prev with
  | none =>
    let s := st.streak + 1
    if st.longest < s then
      { longest := s, streak := s, prev := some date,
        longest_start := some date, longest_end := some date }
    else
      { st with streak := s, prev := some date }
  | some p =>
    if date - p = 1 then
      let s := st.streak + 1
      if st.longest < s then
        { longest := s, streak := s, prev := some date,
          longest_start := some p, longest_end := some date }
      else
        { st with streak := s, prev := some date }
    else
      { st with streak := 1, prev := some date }

/-- Initial loop state (lines 87-91). -/
def longInit : LongState :=
  { longest := 0, streak := 0, prev := none, longest_start := none, longest_end := none }

/-- The longest-streak computation on a record (lines 87-102): the final
values of longest, longest_start and longest_end after the scan. -/
def compute_longest (daily_counts : List Int) : Nat × Option Int × Option Int :=
  let st := (sortedDates daily_counts).foldl longStep longInit
  (st.longest, st.longest_start, st.longest_end)

/-- Lines 72-104: calculate_streaks.  On an empty record it returns
(0, 0, formatted current date) (lines 73-74); otherwise it returns the
current streak, the longest streak, and the formatted range, where the
range falls back to N/A when longest_start was never assigned
(line 104; the loop assigns longest_start and longest_end together). -/
def calculate_streaks (now : Int) (daily_counts : List Int) : Nat × Nat × RangeOut :=
  if daily_counts = [] then
    (0, 0, RangeOut.todayStr now)
  else
    let res := compute_longest daily_counts
    (compute_current now daily_counts, res.1,
      match res.2.1, res.2.2 with
      | some s, some e => RangeOut.range s e
      | _, _ => RangeOut.na)

/-- State-passing view of the current-streak computation: the function
receives the record and hands it back untouched, since the Python loop
(lines 78-85) only reads the freshly built sorted key list and local
variables and never writes to the dict. -/
def compute_current_call (now : Int) (daily_counts : List Int) : List Int × Nat :=
  (daily_counts, compute_current now daily_counts)

/-- A palette of get_theme_colors (lines 107-146): the seven named colors. -/
structure ThemeColors where
  background : String
  border : String
  accent : String
  current : String
  label : String
  range : String
  flame : String
deriving DecidableEq

/-- Palette of the key ocean-blue-dark (lines 109-117). -/
def oceanBlueDark : ThemeColors :=
  { background := "#1A1B27", border := "#E4E2E2", accent := "#5B9EFF",
    current := "#A78BFA", label := "#5B9EFF", range := "#34D399", flame := "#5B9EFF" }

/-- Palette of the key ocean-blue-light (lines 118-126). -/
def oceanBlueLight : ThemeColors :=
  { background := "#F8FAFC", border := "#CBD5E1", accent := "#3B82F6",
    current := "#8B5CF6", label := "#1D4ED8", range := "#10B981", flame := "#3B82F6" }

/-- Palette of the key emerald-forest-dark (lines 127-135). -/
def emeraldForestDark : ThemeColors :=
  { background := "#1A1B27", border := "#E4E2E2", accent := "#10B981",
    current := "#34D399", label := "#10B981", range := "#FBBF24", flame := "#10B981" }

/-- Palette of the key mint-breeze-light (lines 136-144). -/
def mintBreezeLight : ThemeColors :=
  { background := "#F8FAFC", border := "#CBD5E1", accent := "#10B981",
    current := "#34D399", label := "#065F46", range := "#F59E0B", flame := "#059669" }

/-- The themes dict of get_theme_colors (lines 108-145) as an association
list; dict keys are unique. -/
def themes : List (String × ThemeColors) :=
  [("ocean-blue-dark", oceanBlueDark),
   ("ocean-blue-light", oceanBlueLight),
   ("emerald-forest-dark", emeraldForestDark),
   ("mint-breeze-light", mintBreezeLight)]

/-- Line 146: themes.get(theme_slug, themes of ocean-blue-dark). -/
def get_theme_colors (theme_slug : String) : ThemeColors :=
  (themes.lookup theme_slug).getD oceanBlueDark

/-- The checked credential (lines 36-38): token is the GITHUB_TOKEN
environment value, absent modelled as none.  The code raises when
not token or len(token) < 10, i.e. exactly when this is false (an empty
string is falsy in Python, and it also has length < 10). -/
def token_ok (token : Option String) : Bool :=
  match token with
  | none => false
  | some t => decide (10 ≤ t.length)

/-- Shape of the GraphQL response consumed by fetch_contributions
(lines 46-60): HTTP status, presence of an errors key, and the optional
user payload holding the flat list of contribution days (date, count)
together with totalContributions. -/
structure GraphQLResponse where
  status : Nat
  hasErrors : Bool
  userData : Option (List (Int × Nat) × Nat)
deriving DecidableEq

/-- Lines 36-69: fetch_contributions.  The response of the single
requests.post call is supplied as a parameter, and the boolean of the
result records whether that network request was performed.  The token
check (lines 36-38) runs before the request; afterwards the code checks
the HTTP status (line 48), the errors key (line 52) and the user payload
(line 56), then keeps the days with positive count (lines 62-67). -/
def fetch_contributions (token : Option String) (resp : GraphQLResponse) :
    Except String (List (Int × Nat) × Nat) × Bool :=
  if token_ok token = false then
    (Except.error "GITHUB_TOKEN missing or invalid!", false)
  else if resp.status ≠ 200 then
    (Except.error "HTTP error", true)
  else if resp.hasErrors then
    (Except.error "GraphQL errors", true)
  else
    match resp.userData with
    | none => (Except.error "User not found", true)
    | some (days, total) =>
      (Except.ok (days.filter (fun day => 0 < day.2), total), true)

/-- Lines 280-283 of the main block: the run fetches the contributions
and, only when the fetch succeeded, invokes calculate_streaks on the
dates of the fetched record. -/
def run_pipeline (token : Option String) (resp : GraphQLResponse) (now : Int) :
    Option (Nat × Nat × RangeOut) :=
  match fetch_contributions token resp with
  | (Except.error _, _) => none
  | (Except.ok (days, _), _) => some (calculate_streaks now (days.map Prod.fst))

/-! Helper lemmas. -/

/-- When every recorded date is strictly before now, the first date the
backward scan looks at already has a gap of at least one day while the
counter is still zero, so the loop stops at once and the current streak
is zero. -/
theorem compute_current_eq_zero (now : Int) (r : List Int)
    (h : ∀ d ∈ r, d < now) : compute_current now r = 0 := by
  unfold compute_current
  cases hE : (sortedDates r).reverse with
  | nil => rfl
  | cons d ds =>
    have hdmem : d ∈ (sortedDates r).reverse := by
      rw [hE]; exact List.mem_cons_self d ds
    have hd : d ∈ r := by
      have h1 : d ∈ sortedDates r := List.mem_reverse.mp hdmem
      simpa [sortedDates, List.mem_insertionSort] using h1
    have hcond : ¬ now - d ≤ ((0 : Nat) : Int) := by
      have := h d hd
      push_cast
      omega
    simp only [currentLoop, if_neg hcond]

/-! Theorems for the claims. -/

/-- Claim C1: for the record with days 2024-01-01, 2024-01-02,
2024-01-03, 2024-01-05 (encoded 0, 1, 2, 4) and reference date
2024-01-05 (encoded 4), the code returns current streak 1 and longest
streak 3 as the claim states, but the longest-streak range it returns is
(2024-01-02, 2024-01-03) (encoded range 1 2), not the claimed
(2024-01-01, 2024-01-03) (encoded range 0 2): line 98 stores the
previous date, the second-to-last day of the run, as the start. -/
theorem calculate_streaks_scenario_range_off :
    calculate_streaks 4 [0, 1, 2, 4] = (1, 3, RangeOut.range 1 2) ∧
    RangeOut.range 1 2 ≠ RangeOut.range 0 2 := by decide

/-- Claim C2: for the record with the two disjoint runs Jan 1-3 and
Jan 10-12 (encoded 0, 1, 2, 9, 10, 11) the code returns the maximal
length 3, and the later equal-length run does not overwrite the recorded
range, but the recorded range is (Jan 2, Jan 3) (encoded range 1 2)
rather than the full first run (Jan 1, Jan 3) (encoded range 0 2). -/
theorem calculate_streaks_tie_range_off :
    calculate_streaks 12 [0, 1, 2, 9, 10, 11] = (0, 3, RangeOut.range 1 2) ∧
    RangeOut.range 1 2 ≠ RangeOut.range 0 2 := by decide

/-- Claim C3, counterexample: on the empty record the range slot of the
result is the formatted current date (line 74), not the unavailability
marker N/A, so the claimed result (0, 0, none) does not hold as stated. -/
theorem calculate_streaks_empty_range_not_na :
    (calculate_streaks 4 []).2.2 = RangeOut.todayStr 4 ∧
    RangeOut.todayStr 4 ≠ RangeOut.na := by decide

/-- Claim C3, amended: on the empty record the computation returns
current streak 0 and longest streak 0, and the range slot holds the
formatted current date rather than an unavailable marker. -/
theorem calculate_streaks_empty (now : Int) :
    calculate_streaks now [] = (0, 0, RangeOut.todayStr now) := rfl

/-- Claim C4, counterexample: for the record holding only the day before
the reference date (encoded record with day 3, reference date 4) the
current streak is 0, not a positive value: the first gap is 1 while the
counter is still 0, so the claimed consequence that a streak ending
yesterday still counts is false. -/
theorem calculate_streaks_yesterday_only_zero :
    (calculate_streaks 4 [3]).1 = 0 := by decide

/-- Claim C4, amended: the scanning loop counts a date d exactly when
the gap now - d is at most the running counter; consequently, since the
counter starts at 0, whenever the reference date itself has no recorded
activity (and no recorded date lies after it) the current streak is 0,
even when the day before the reference date and days before it have
recorded activity. -/
theorem currentLoop_gap_rule_and_absent_today_zero :
    (∀ (now d : Int) (ds : List Int) (c : Nat),
        currentLoop now (d :: ds) c =
          if now - d ≤ (c : Int) then currentLoop now ds (c + 1) else c) ∧
    (∀ (now : Int) (r : List Int), now ∉ r → (∀ d ∈ r, d ≤ now) →
        (calculate_streaks now r).1 = 0) := by
  constructor
  · intro now d ds c
    rfl
  · intro now r hno hub
    have hz : compute_current now r = 0 :=
      compute_current_eq_zero now r
        (fun d hd => lt_of_le_of_ne (hub d hd) (fun he => hno (he ▸ hd)))
    by_cases hr : r = []
    · subst hr; rfl
    · simp [calculate_streaks, hr, hz]

/-- Claim C4, witness at the concrete counterexample-style input: the
record with day 3 only and reference date 4. -/
theorem currentLoop_gap_rule_and_absent_today_zero_witness :
    (4 : Int) ∉ ([3] : List Int) ∧ (calculate_streaks 4 [3]).1 = 0 :=
  ⟨by decide, currentLoop_gap_rule_and_absent_today_zero.2 4 [3] (by decide) (by decide)⟩

/-- Claim C5: when the most recent recorded date lies at least two days
before the reference date, the current streak is 0. -/
theorem calculate_streaks_current_zero_of_gap (now : Int) (r : List Int) (dmax : Int)
    (hmem : dmax ∈ r) (hub : ∀ d ∈ r, d ≤ dmax) (hgap : 2 ≤ now - dmax) :
    (calculate_streaks now r).1 = 0 := by
  have hz : compute_current now r = 0 :=
    compute_current_eq_zero now r (fun d hd => by have := hub d hd; omega)
  have hr : r ≠ [] := by
    intro h
    subst h
    exact absurd hmem (List.not_mem_nil dmax)
  simp [calculate_streaks, hr, hz]

/-- Claim C5, witness: the record with the single day 2 and reference
date 4, a two-day gap. -/
theorem calculate_streaks_current_zero_of_gap_witness :
    (2 : Int) ∈ ([2] : List Int) ∧ 2 ≤ (4 : Int) - 2 ∧ (calculate_streaks 4 [2]).1 = 0 :=
  ⟨by decide, by decide,
    calculate_streaks_current_zero_of_gap 4 [2] 2 (by decide) (by decide) (by decide)⟩

/-- Claim C6: the longest-streak computation is a pure function of the
record, so recomputing it on the same record yields the same
(length, start, end) triple. -/
theorem compute_longest_deterministic :
    ∀ r : List Int, compute_longest r = compute_longest r :=
  fun _ => rfl

/-- Claim C7: the current-streak computation hands its input record back
unchanged, and computing the longest streak on the record it returns
yields the same result as computing it on the original record. -/
theorem compute_current_preserves_record (now : Int) (r : List Int) :
    (compute_current_call now r).1 = r ∧
    compute_longest (compute_current_call now r).1 = compute_longest r :=
  ⟨rfl, rfl⟩

/-- Claim C8: a selector outside the palette table yields the same
palette as the selector ocean-blue-dark, and each selector in the table
yields its own palette. -/
theorem get_theme_colors_spec :
    (∀ s : String, s ∉ themes.map Prod.fst →
        get_theme_colors s = get_theme_colors "ocean-blue-dark") ∧
    get_theme_colors "ocean-blue-dark" = oceanBlueDark ∧
    get_theme_colors "ocean-blue-light" = oceanBlueLight ∧
    get_theme_colors "emerald-forest-dark" = emeraldForestDark ∧
    get_theme_colors "mint-breeze-light" = mintBreezeLight := by
  refine ⟨?_, rfl, rfl, rfl, rfl⟩
  intro s hs
  simp only [themes, List.map, List.mem_cons, List.not_mem_nil, or_false, not_or] at hs
  obtain ⟨h1, h2, h3, h4⟩ := hs
  have b1 : (s == "ocean-blue-dark") = false := beq_eq_false_iff_ne.mpr h1
  have b2 : (s == "ocean-blue-light") = false := beq_eq_false_iff_ne.mpr h2
  have b3 : (s == "emerald-forest-dark") = false := beq_eq_false_iff_ne.mpr h3
  have b4 : (s == "mint-breeze-light") = false := beq_eq_false_iff_ne.mpr h4
  simp [get_theme_colors, themes, List.lookup, b1, b2, b3, b4]

/-- Claim C8, witness: the unrecognized selector solar-flare falls back
to the ocean-blue-dark palette. -/
theorem get_theme_colors_spec_witness :
    "solar-flare" ∉ themes.map Prod.fst ∧
    get_theme_colors "solar-flare" = get_theme_colors "ocean-blue-dark" :=
  ⟨by decide, get_theme_colors_spec.1 "solar-flare" (by decide)⟩

/-- Claim C9: with a missing or too-short credential the fetch returns
the token error without performing the network request, and the pipeline
never invokes the streak computation. -/
theorem fetch_aborts_on_bad_token (token : Option String) (resp : GraphQLResponse)
    (now : Int) (h : token_ok token = false) :
    fetch_contributions token resp = (Except.error "GITHUB_TOKEN missing or invalid!", false) ∧
    run_pipeline token resp now = none := by
  have h1 : fetch_contributions token resp =
      (Except.error "GITHUB_TOKEN missing or invalid!", false) := by
    simp [fetch_contributions, h]
  exact ⟨h1, by simp [run_pipeline, h1]⟩

/-- Claim C9, witness: the absent credential with a healthy response at
hand still aborts with no request made and no streak computed. -/
theorem fetch_aborts_on_bad_token_witness :
    token_ok none = false ∧
    fetch_contributions none ⟨200, false, none⟩ =
      (Except.error "GITHUB_TOKEN missing or invalid!", false) ∧
    run_pipeline none ⟨200, false, none⟩ 0 = none :=
  ⟨rfl, fetch_aborts_on_bad_token none ⟨200, false, none⟩ 0 rfl⟩

/-! Lemmas for the relation between the current streak and the longest
streak. -/

/-- Backward-scan characterization: on a strictly descending date list
whose entries are at most now - c, every index j between the incoming
counter c and the final counter corresponds to a date now - j present in
the list.  In particular the dates counted by the current-streak loop
form a block of consecutive days ending at now. -/
theorem currentLoop_mem_of_desc (now : Int) :
    ∀ (l : List Int) (c : Nat),
      l.Pairwise (fun a b => b < a) →
      (∀ d ∈ l, d ≤ now - c) →
      ∀ j : Nat, c ≤ j → j < currentLoop now l c → (now - j) ∈ l := by
  intro l
  induction l with
  | nil =>
    intro c _ _ j hcj hj
    simp only [currentLoop] at hj
    omega
  | cons d ds ih =>
    intro c hp hub j hcj hj
    simp only [currentLoop] at hj
    by_cases hcond : now - d ≤ (c : Int)
    · rw [if_pos hcond] at hj
      have hdle : d ≤ now - (c : Int) := hub d (List.mem_cons_self d ds)
      have hdc : d = now - (c : Int) := by omega
      rcases Nat.eq_or_lt_of_le hcj with he | hlt
      · have hjd : now - (j : Int) = d := by omega
        rw [hjd]
        exact List.mem_cons_self d ds
      · have hp' : ds.Pairwise (fun a b => b < a) := (List.pairwise_cons.mp hp).2
        have hub' : ∀ e ∈ ds, e ≤ now - ((c + 1 : Nat) : Int) := by
          intro e he
          have hlt2 : e < d := (List.pairwise_cons.mp hp).1 e he
          push_cast
          omega
        exact List.mem_cons_of_mem d (ih (c + 1) hp' hub' j hlt hj)
    · rw [if_neg hcond] at hj
      omega

/-- The longest-streak step always records the processed date as prev. -/
theorem longStep_prev (st : LongState) (d : Int) : (longStep st d).prev = some d := by
  obtain ⟨lo, sk, pv, ls, le⟩ := st
  cases pv with
  | none => by_cases h : lo < sk + 1 <;> simp [longStep, h]
  | some p =>
    by_cases h1 : d - p = 1
    · by_cases h2 : lo < sk + 1 <;> simp [longStep, h1, h2]
    · simp [longStep, h1]

/-- After processing any date the running streak is at least one. -/
theorem longStep_streak_pos (st : LongState) (d : Int) : 1 ≤ (longStep st d).streak := by
  obtain ⟨lo, sk, pv, ls, le⟩ := st
  cases pv with
  | none => by_cases h : lo < sk + 1 <;> simp [longStep, h]
  | some p =>
    by_cases h1 : d - p = 1
    · by_cases h2 : lo < sk + 1 <;> simp [longStep, h1, h2]
    · simp [longStep, h1]

/-- The recorded maximum never decreases across a step. -/
theorem longStep_longest_mono (st : LongState) (d : Int) :
    st.longest ≤ (longStep st d).longest := by
  obtain ⟨lo, sk, pv, ls, le⟩ := st
  cases pv with
  | none => by_cases h : lo < sk + 1 <;> simp [longStep, h] <;> omega
  | some p =>
    by_cases h1 : d - p = 1
    · by_cases h2 : lo < sk + 1 <;> simp [longStep, h1, h2] <;> omega
    · simp [longStep, h1]

/-- When the processed date is the successor of prev, the step extends
the running streak by one. -/
theorem longStep_extend (st : LongState) (p d : Int)
    (hp : st.prev = some p) (h : d - p = 1) :
    (longStep st d).streak = st.streak + 1 := by
  obtain ⟨lo, sk, pv, ls, le⟩ := st
  cases pv with
  | none => simp at hp
  | some q =>
    obtain rfl : q = p := by simpa using hp
    by_cases h2 : lo < sk + 1 <;> simp [longStep, h, h2]

/-- Loop invariant of the longest-streak scan: the recorded maximum
dominates the running streak, and once any date has been processed the
maximum is at least one. -/
def Jinv (st : LongState) : Prop :=
  st.streak ≤ st.longest ∧ (st.prev ≠ none → 1 ≤ st.longest)

/-- The invariant holds initially. -/
theorem Jinv_longInit : Jinv longInit := by
  constructor <;> simp [longInit]

/-- The invariant is preserved by every step. -/
theorem Jinv_longStep (st : LongState) (d : Int) (h : Jinv st) : Jinv (longStep st d) := by
  obtain ⟨lo, sk, pv, ls, le⟩ := st
  obtain ⟨h1, h2⟩ := h
  simp only at h1 h2
  cases pv with
  | none =>
    by_cases hl : lo < sk + 1 <;> simp [longStep, hl, Jinv] <;> omega
  | some p =>
    have h2' : 1 ≤ lo := h2 (by simp)
    by_cases hd : d - p = 1
    · by_cases hl : lo < sk + 1 <;> simp [longStep, hd, hl, Jinv] <;> omega
    · simp [longStep, hd, Jinv]
      omega

/-- The invariant is preserved by the whole scan. -/
theorem foldl_Jinv (l : List Int) : ∀ st, Jinv st → Jinv (l.foldl longStep st) := by
  induction l with
  | nil => intro st h; simpa using h
  | cons d ds ih =>
    intro st h
    rw [List.foldl_cons]
    exact ih (longStep st d) (Jinv_longStep st d h)

/-- The recorded maximum never decreases across a scan. -/
theorem foldl_longest_mono (l : List Int) :
    ∀ st : LongState, st.longest ≤ (l.foldl longStep st).longest := by
  induction l with
  | nil => intro st; simp
  | cons d ds ih =>
    intro st
    have h1 := longStep_longest_mono st d
    have h2 := ih (longStep st d)
    rw [List.foldl_cons]
    omega

/-- The block of k consecutive days starting at a. -/
def consecList (a : Int) (k : Nat) : List Int :=
  (List.range k).map (fun i : Nat => a + (i : Int))

/-- Membership in a consecutive block. -/
theorem mem_consecList (a : Int) (k : Nat) (x : Int) :
    x ∈ consecList a k ↔ a ≤ x ∧ x < a + k := by
  constructor
  · intro hx
    obtain ⟨i, hi, hix⟩ := List.mem_map.mp hx
    have hik : i < k := List.mem_range.mp hi
    have hax : a + (i : Int) = x := hix
    omega
  · rintro ⟨h1, h2⟩
    refine List.mem_map.mpr ⟨(x - a).toNat, List.mem_range.mpr (by omega), ?_⟩
    show a + (((x - a).toNat : Nat) : Int) = x
    omega

/-- A consecutive block is strictly ascending. -/
theorem consecList_pairwise (a : Int) (k : Nat) :
    (consecList a k).Pairwise (· < ·) :=
  List.Pairwise.map _
    (fun i j h =>
      show a + (i : Int) < a + (j : Int) by
        have h' : i < j := h
        omega)
    (List.pairwise_lt_range k)

/-- Scanning a nonempty consecutive block from a state satisfying the
invariant leaves a running streak of at least the block length, with
prev at the last day of the block, and keeps the invariant. -/
theorem consec_fold (a : Int) :
    ∀ k : Nat, 1 ≤ k → ∀ st : LongState, Jinv st →
      k ≤ ((consecList a k).foldl longStep st).streak ∧
      ((consecList a k).foldl longStep st).prev = some (a + ((k - 1 : Nat) : Int)) ∧
      Jinv ((consecList a k).foldl longStep st) := by
  intro k
  induction k with
  | zero => intro h; omega
  | succ n ih =>
    intro _ st hJ
    by_cases hn : n = 0
    · subst hn
      have hcl : consecList a 1 = [a] := by
        simp [consecList, List.range_succ]
      rw [hcl, List.foldl_cons, List.foldl_nil]
      refine ⟨longStep_streak_pos st a, ?_, Jinv_longStep st a hJ⟩
      rw [longStep_prev]
      norm_num
    · have h1n : 1 ≤ n := by omega
      have hsplit : consecList a (n + 1) = consecList a n ++ [a + (n : Int)] := by
        simp [consecList, List.range_succ]
      obtain ⟨ih1, ih2, ih3⟩ := ih h1n st hJ
      rw [hsplit, List.foldl_append, List.foldl_cons, List.foldl_nil]
      have hext : (longStep ((consecList a n).foldl longStep st) (a + (n : Int))).streak =
          ((consecList a n).foldl longStep st).streak + 1 := by
        apply longStep_extend _ (a + ((n - 1 : Nat) : Int)) _ ih2
        omega
      refine ⟨?_, ?_, Jinv_longStep _ _ ih3⟩
      · omega
      · rw [longStep_prev]
        norm_num

/-- On a strictly ascending list, dropping the prefix of entries at
most c leaves exactly the entries greater than c. -/
theorem mem_dropWhile_sorted (c : Int) :
    ∀ l : List Int, l.Pairwise (· < ·) →
      ∀ x : Int, x ∈ l.dropWhile (fun d => decide (d ≤ c)) ↔ x ∈ l ∧ c < x := by
  intro l
  induction l with
  | nil => intro _ x; simp
  | cons d ds ih =>
    intro hp x
    obtain ⟨hhead, htail⟩ := List.pairwise_cons.mp hp
    rw [List.dropWhile_cons]
    by_cases hd : d ≤ c
    · rw [if_pos (by simpa using hd), ih htail x]
      constructor
      · rintro ⟨hm, hc⟩
        exact ⟨List.mem_cons_of_mem d hm, hc⟩
      · rintro ⟨hm, hc⟩
        rcases List.mem_cons.mp hm with rfl | hm'
        · omega
        · exact ⟨hm', hc⟩
    · rw [if_neg (by simpa using hd)]
      constructor
      · intro hm
        refine ⟨hm, ?_⟩
        rcases List.mem_cons.mp hm with rfl | hm'
        · omega
        · have := hhead x hm'
          omega
      · rintro ⟨hm, _⟩
        exact hm

/-- Two strictly ascending lists with the same members are equal. -/
theorem sorted_eq_of_mem (l₁ : List Int) :
    ∀ l₂ : List Int, l₁.Pairwise (· < ·) → l₂.Pairwise (· < ·) →
      (∀ x, x ∈ l₁ ↔ x ∈ l₂) → l₁ = l₂ := by
  induction l₁ with
  | nil =>
    intro l₂ _ _ hm
    cases l₂ with
    | nil => rfl
    | cons y ys => exact absurd ((hm y).mpr (List.mem_cons_self y ys)) (List.not_mem_nil y)
  | cons x xs ih =>
    intro l₂ h1 h2 hm
    cases l₂ with
    | nil => exact absurd ((hm x).mp (List.mem_cons_self x xs)) (List.not_mem_nil x)
    | cons y ys =>
      obtain ⟨hx1, hx1'⟩ := List.pairwise_cons.mp h1
      obtain ⟨hy1, hy1'⟩ := List.pairwise_cons.mp h2
      have hxy : x = y := by
        rcases List.mem_cons.mp ((hm x).mp (List.mem_cons_self x xs)) with h | h
        · exact h
        · have hyx : y < x := hy1 x h
          rcases List.mem_cons.mp ((hm y).mpr (List.mem_cons_self y ys)) with h' | h'
          · omega
          · have := hx1 y h'
            omega
      subst hxy
      congr 1
      apply ih ys hx1' hy1'
      intro z
      constructor
      · intro hz
        have hlt := hx1 z hz
        rcases List.mem_cons.mp ((hm z).mp (List.mem_cons_of_mem x hz)) with rfl | h'
        · omega
        · exact h'
      · intro hz
        have hlt := hy1 z hz
        rcases List.mem_cons.mp ((hm z).mpr (List.mem_cons_of_mem x hz)) with rfl | h'
        · omega
        · exact h'

/-- A strictly ascending list bounded by now that contains the k days
now - k + 1, ..., now ends exactly with that consecutive block. -/
theorem sorted_split (now : Int) (k : Nat) (l : List Int)
    (hs : l.Pairwise (· < ·))
    (hub : ∀ d ∈ l, d ≤ now)
    (hmem : ∀ j : Nat, j < k → (now - j) ∈ l) :
    ∃ t, l = t ++ consecList (now - k + 1) k := by
  refine ⟨l.takeWhile (fun d => decide (d ≤ now - (k : Int))), ?_⟩
  have hsplit := List.takeWhile_append_dropWhile (fun d => decide (d ≤ now - (k : Int))) l
  have hdrop : l.dropWhile (fun d => decide (d ≤ now - (k : Int))) =
      consecList (now - k + 1) k := by
    apply sorted_eq_of_mem
    · exact List.Pairwise.sublist (List.dropWhile_sublist _) hs
    · exact consecList_pairwise _ _
    · intro x
      rw [mem_dropWhile_sorted (now - (k : Int)) l hs x, mem_consecList]
      constructor
      · rintro ⟨hx, hcx⟩
        have := hub x hx
        omega
      · rintro ⟨hx1, hx2⟩
        have hj : (now - x).toNat < k := by omega
        have hmx := hmem (now - x).toNat hj
        have hx : now - (((now - x).toNat : Nat) : Int) = x := by omega
        rw [hx] at hmx
        exact ⟨hmx, by omega⟩
  rw [hdrop] at hsplit
  exact hsplit.symm

/-- Claim C10: when every recorded date is on or before the reference
date, the longest streak reported by calculate_streaks is at least the
current streak: the dates counted by the backward scan form a run of
consecutive days present in the record, so the forward scan's maximum
covers them.  The Nodup hypothesis reflects the uniqueness of dict keys. -/
theorem calculate_streaks_longest_ge_current (now : Int) (r : List Int)
    (hnd : r.Nodup) (hub : ∀ d ∈ r, d ≤ now) :
    (calculate_streaks now r).1 ≤ (calculate_streaks now r).2.1 := by
  by_cases hr : r = []
  · subst hr
    simp [calculate_streaks]
  · have hres1 : (calculate_streaks now r).1 = compute_current now r := by
      simp [calculate_streaks, hr]
    have hres2 : (calculate_streaks now r).2.1 = (compute_longest r).1 := by
      simp [calculate_streaks, hr]
    rw [hres1, hres2]
    have hperm : (sortedDates r).Perm r := List.perm_insertionSort _ r
    have hsle : (sortedDates r).Sorted (· ≤ ·) := List.sorted_insertionSort _ r
    have hlnd : (sortedDates r).Nodup := hperm.nodup_iff.mpr hnd
    have hslt : (sortedDates r).Pairwise (· < ·) := hsle.lt_of_le hlnd
    have hubl : ∀ d ∈ sortedDates r, d ≤ now := fun d hd => hub d (hperm.mem_iff.mp hd)
    set k := compute_current now r
    rcases Nat.eq_zero_or_pos k with hk0 | hkpos
    · rw [hk0]
      exact Nat.zero_le _
    · have hrev : (sortedDates r).reverse.Pairwise (fun a b => b < a) := by
        rw [List.pairwise_reverse]
        exact hslt
      have hub0 : ∀ d ∈ (sortedDates r).reverse, d ≤ now - ((0 : Nat) : Int) := by
        intro d hd
        have := hubl d (List.mem_reverse.mp hd)
        push_cast
        omega
      have hmem : ∀ j : Nat, j < k → (now - j) ∈ sortedDates r := by
        intro j hj
        have hj' : j < currentLoop now (sortedDates r).reverse 0 := hj
        exact List.mem_reverse.mp
          (currentLoop_mem_of_desc now (sortedDates r).reverse 0 hrev hub0 j (Nat.zero_le j) hj')
      obtain ⟨t, hsplitl⟩ := sorted_split now k (sortedDates r) hslt hubl hmem
      have hJt : Jinv (t.foldl longStep longInit) := foldl_Jinv t longInit Jinv_longInit
      obtain ⟨hstreak, _, hJf⟩ :=
        consec_fold (now - k + 1) k hkpos (t.foldl longStep longInit) hJt
      have hlong : (compute_longest r).1 = ((sortedDates r).foldl longStep longInit).longest := by
        simp [compute_longest]
      have hfold : (sortedDates r).foldl longStep longInit =
          (consecList (now - k + 1) k).foldl longStep (t.foldl longStep longInit) := by
        rw [hsplitl, List.foldl_append]
      rw [hlong, hfold]
      have hsl := hJf.1
      omega

/-- Claim C10, witness: the scenario record with days 0, 1, 2, 4 and
reference day 4 has longest streak 3 at least its current streak 1. -/
theorem calculate_streaks_longest_ge_current_witness :
    ([0, 1, 2, 4] : List Int).Nodup ∧
    (calculate_streaks 4 [0, 1, 2, 4]).1 ≤ (calculate_streaks 4 [0, 1, 2, 4]).2.1 :=
  ⟨by decide, calculate_streaks_longest_ge_current 4 [0, 1, 2, 4] (by decide) (by decide)⟩
